import Mathlib

/-!
Shallow embedding of the BloodHound Azure Function collectors
(`SharedCode/utility/rate_limiter.py` and
`SharedCode/azure_functions/*.py`), together with theorems settling the
specification claims about the rate limiter, the watermark handling of the
collectors, and the per-record dispatch pipeline.

Conventions: wall-clock time and token counts are rationals (the Python
code uses floats; the algorithmic content is modelled exactly), ISO-8601
timestamps are strings compared lexically (the code compares Python
strings), and Python dictionaries holding watermarks are association
lists updated by key.
-/

namespace BloodHound

/-! ### Association-list helpers (Python dict keyed by string(s)) -/

/-- Python `d[key] = value` on an association list: replace the entry if the key is
present, append otherwise. -/
def setEntry {α : Type} [DecidableEq α] (m : List (α × String)) (k : α) (v : String) :
    List (α × String) :=
  match m with
  | [] => [(k, v)]
  | (k', v') :: rest =>
    if k' = k then (k, v) :: rest else (k', v') :: setEntry rest k v

/-- Python `d.get(key)` on an association list. -/
def lookupEntry {α : Type} [DecidableEq α] (m : List (α × String)) (k : α) : Option String :=
  match m with
  | [] => none
  | (k', v') :: rest => if k' = k then some v' else lookupEntry rest k

theorem lookupEntry_setEntry_self {α : Type} [DecidableEq α]
    (m : List (α × String)) (k : α) (v : String) :
    lookupEntry (setEntry m k v) k = some v := by
  induction m with
  | nil => simp [setEntry, lookupEntry]
  | cons hd tl ih =>
    obtain ⟨k', v'⟩ := hd
    by_cases h : k' = k
    · simp [setEntry, lookupEntry, h]
    · simp [setEntry, lookupEntry, h, ih]

/-! ### Rate limiter (`GlobalRateLimiter`, rate_limiter.py)

The mutable fields relevant to the token bucket are `current_tokens` and
`last_refill_time`; `max_tokens` and `tokens_per_second` are fixed at
construction (both equal to `max_requests_per_second`).  A bucket state is
the pair `(current_tokens, last_refill_time)`. -/

/-- Embedding of `GlobalRateLimiter._refill_tokens`, called with the current wall-clock
time `now`: if any time has elapsed, add `elapsed * tokens_per_second`
tokens, clamped at `max_tokens`, and record `now` as the last refill time. -/
def refillTokens (cap rate : ℚ) (s : ℚ × ℚ) (now : ℚ) : ℚ × ℚ :=
  if now - s.2 > 0 then (min cap (s.1 + (now - s.2) * rate), now) else s

/-- One pass of the check inside `GlobalRateLimiter.acquire`, performed at
wall-clock time `now`: refill, then grant (consuming one token) exactly when
at least one token is available.  Returns whether a token was granted
together with the resulting bucket state. -/
def acquireAttempt (cap rate : ℚ) (s : ℚ × ℚ) (now : ℚ) : Bool × (ℚ × ℚ) :=
  if 1 ≤ (refillTokens cap rate s now).1 then
    (true, ((refillTokens cap rate s now).1 - 1, (refillTokens cap rate s now).2))
  else (false, refillTokens cap rate s now)

/-- Number of granted acquisitions whose wall-clock time lies in the window
`[w, w + T]`, over a sequence of acquisition attempts at the given times. -/
def grantsInWindow (cap rate w T : ℚ) (s : ℚ × ℚ) : List ℚ → ℕ
  | [] => 0
  | n :: rest =>
    (if (acquireAttempt cap rate s n).1 = true ∧ w ≤ n ∧ n ≤ w + T then 1 else 0)
      + grantsInWindow cap rate w T (acquireAttempt cap rate s n).2 rest

/-- Embedding of `GlobalRateLimiter.acquire` with an explicit fuel bound on loop
iterations.  Single-threaded semantics: time advances only across
`time.sleep(wait_time)`, so the clock on re-entry is `now + wait`.  The
result carries the grant flag, the final bucket state, and the wall-clock
time at which the call returned; `none` means the fuel ran out. -/
def acquireFuel (cap rate : ℚ) (timeout : Option ℚ) (startTime : ℚ) :
    ℕ → (ℚ × ℚ) → ℚ → Option (Bool × (ℚ × ℚ) × ℚ)
  | 0, _, _ => none
  | fuel + 1, s, now =>
    if 1 ≤ (refillTokens cap rate s now).1 then
      some (true, ((refillTokens cap rate s now).1 - 1, (refillTokens cap rate s now).2), now)
    else
      match timeout with
      | some tmo =>
        if now - startTime + (1 - (refillTokens cap rate s now).1) / rate > tmo then
          some (false, refillTokens cap rate s now, now)
        else
          acquireFuel cap rate timeout startTime fuel (refillTokens cap rate s now)
            (now + (1 - (refillTokens cap rate s now).1) / rate)
      | none =>
        acquireFuel cap rate timeout startTime fuel (refillTokens cap rate s now)
          (now + (1 - (refillTokens cap rate s now).1) / rate)

/-! ### Sink dispatch (`send_*_to_azure_monitor` helpers)

A single record's interaction with the sink either yields a response dict
(whose `status` field we keep) or raises an exception; the `try/except`
in the dispatch loops turns both into a counted outcome. -/

/-- Outcome of one `bloodhound_manager.send_*` call for one record. -/
inductive SinkResult where
  | response (status : String)
  | raised
deriving DecidableEq, Repr

/-- Python `result.get("status") == "success"`: the success test used by the
counting dispatch helpers (attack paths, audit logs, posture history,
tier-zero assets, finding trends). -/
def isSuccess : SinkResult → Bool
  | .response s => s = "success"
  | .raised => false

/-- The dispatch loop shared by `send_audit_logs_to_azure_monitor`,
`send_attack_paths_to_azure_monitor`, `send_tier_zero_assets_to_azure_monitor`,
`send_posture_history_to_azure_monitor` and
`send_finding_trends_to_azure_monitor`: iterate over the per-record sink
results, incrementing `successful_submissions` on a `"success"` status and
`failed_submissions` on any other status or a raised exception, never
aborting the loop.  Returns `(successful_submissions, failed_submissions)`. -/
def sendCounts (results : List SinkResult) : ℕ × ℕ :=
  results.foldl
    (fun acc r => if isSuccess r then (acc.1 + 1, acc.2) else (acc.1, acc.2 + 1))
    (0, 0)

/-- The inline dispatch loop of `run_attack_paths_timeline_collection_process`
(steps 9, lines 262–276): the submission entry is recorded with status
`"success"` whenever the send call returns without raising — the response's
own `status` field is never inspected — and `"error"` when it raises. -/
def timelineRecordedStatus : SinkResult → String
  | .response _ => "success"
  | .raised => "error"

/-! ### Audit log collector (`audit_log_collector.py`)

Per tenant, the collector fetches `audit_logs` (each log may or may not
carry a `"created_at"` field, modelled as `Option String`), dispatches them,
and — only when `successful_submissions > 0` — stores
`max(log["created_at"] for log in audit_logs if "created_at" in log)`
under the tenant's domain. -/

/-- Embedding of `max(log["created_at"] for log in audit_logs if "created_at" in log)`:
`none` when no log carries the field (Python `max` over an empty generator
raises `ValueError` there). -/
def auditMaxCreated (logs : List (Option String)) : Option String :=
  logs.foldl
    (fun acc c =>
      match c with
      | none => acc
      | some t => some (match acc with | none => t | some m => max m t))
    none

/-- The watermark step of `bloodhound_audit_logs_collector_main_function`
(lines 120–129): advance the tenant's stored timestamp to the maximum
fetched `created_at` only when at least one submission succeeded; leave the
map unchanged otherwise.  `none` models the `ValueError` escaping to the
function-level `except` (no log had a `created_at` yet a submission
succeeded). -/
def auditWmUpdate (wm : List (String × String)) (tenant : String)
    (logs : List (Option String)) (results : List SinkResult) :
    Option (List (String × String)) :=
  if 0 < (sendCounts results).1 then
    match auditMaxCreated logs with
    | some ts => some (setEntry wm tenant ts)
    | none => none
  else some wm

/-- One tenant of the audit-log collector, abstracted over the external
collaborators: whether the connection test passed, whether the Azure
Monitor bearer token was obtained, the fetched logs, and the per-record
sink results. -/
structure AuditTenant where
  domain : String
  connOk : Bool
  tokenOk : Bool
  logs : List (Option String)
  results : List SinkResult
deriving DecidableEq, Repr

/-- Per-tenant body of the audit-log collector loop (lines 70–130): a failed
connection test is handled by the caller (`auditRun`); empty logs or a
missing bearer token skip the tenant (`continue`), otherwise dispatch and
update the watermark. -/
def auditTenantStep (wm : List (String × String)) (t : AuditTenant) :
    Option (List (String × String)) :=
  if t.logs.isEmpty then some wm
  else if t.tokenOk = false then some wm
  else auditWmUpdate wm t.domain t.logs t.results

/-- The multi-tenant loop of `bloodhound_audit_logs_collector_main_function`:
process tenants sequentially; a failed connection test executes a bare
`return` (line 93), ending the run.  The first component is the final state
of the (caller-supplied, mutated in place) timestamp dictionary; the second
is the function's return value — `some` map on normal completion, `none`
for the bare `return` on connection failure or an escaped exception. -/
def auditRun (wm : List (String × String)) :
    List AuditTenant → List (String × String) × Option (List (String × String))
  | [] => (wm, some wm)
  | t :: rest =>
    if t.connOk = false then (wm, none)
    else
      match auditTenantStep wm t with
      | none => (wm, none)
      | some wm' => auditRun wm' rest

/-! ### Attack path collector (`attack_path_collector.py`)

Items are `(Environment, updated_at)` pairs; the per-tenant watermark slice
maps a domain name to its stored timestamp. -/

/-- The watermark filter of `run_attack_paths_collection_process`
(lines 248–254): with an empty stored timestamp, the baseline becomes
`(utcnow() - timedelta(days=DEFAULT_LOOKBACK_DAYS)).isoformat() + "Z"`
(the `fallback` argument); the item is kept when
`not last_saved_ts or item_updated_at > last_saved_ts`. -/
def attackPathAccepts (stored fallback updated : String) : Bool :=
  let ts := if stored = "" then fallback else stored
  ts = "" || ts < updated

/-- The filtering loop of `run_attack_paths_collection_process`
(lines 239–262): accumulate the accepted items and, per domain, the maximum
accepted `updated_at` (`domain_latest_timestamps`). -/
def attackPathFilter (tenantWm : List (String × String)) (fallback : String)
    (items : List (String × String)) :
    List (String × String) × List (String × String) :=
  items.foldl
    (fun acc item =>
      let stored := (lookupEntry tenantWm item.1).getD ""
      if attackPathAccepts stored fallback item.2 then
        let latest :=
          match lookupEntry acc.2 item.1 with
          | none => item.2
          | some m => max m item.2
        (acc.1 ++ [item], setEntry acc.2 item.1 latest)
      else acc)
    ([], [])

/-- Embedding of lines 270–274: write every `domain_latest_timestamps` entry into the
tenant's watermark slice. -/
def attackPathWmMerge (tenantWm domainLatest : List (String × String)) :
    List (String × String) :=
  domainLatest.foldl (fun m kv => setEntry m kv.1 kv.2) tenantWm

/-- Per-tenant filter → dispatch → watermark-fold of
`run_attack_paths_collection_process` (lines 239–274): returns the
submission counts and the updated watermark slice.  The sink results feed
only the counts; the merge uses `domain_latest_timestamps` computed at
filter time. -/
def attackPathTenantStep (tenantWm : List (String × String)) (fallback : String)
    (items : List (String × String)) (results : List SinkResult) :
    (ℕ × ℕ) × List (String × String) :=
  (sendCounts results, attackPathWmMerge tenantWm (attackPathFilter tenantWm fallback items).2)

/-! ### Attack path timeline collector (`attack_path_timeline_collector.py`) -/

/-- Embedding of `max([ap.get("updated_at", "") for ap in entries if ap.get("updated_at")],
default=None)` (lines 231–234): the maximum of the non-empty `updated_at`
values, `none` when there are none. -/
def timelineLatest (entries : List String) : Option String :=
  (entries.filter (fun s => ¬s = "")).foldl
    (fun acc s => match acc with | none => some s | some m => some (max m s))
    none

/-- The per-domain watermark update of
`run_attack_paths_timeline_collection_process` (lines 229–240): when the
domain produced entries and a truthy latest timestamp exists, overwrite the
stored value for the domain with it.  `entries` holds each fetched record's
`updated_at` (empty string when the field is missing). -/
def timelineDomainUpdate (wm : List (String × String)) (domain : String)
    (entries : List String) : List (String × String) :=
  if entries.isEmpty then wm
  else
    match timelineLatest entries with
    | some l => if l = "" then wm else setEntry wm domain l
    | none => wm

/-- Per-tenant shape of `run_attack_paths_timeline_collection_process`
(lines 204–276): the watermark slice is updated once per domain from the
fetched entries, inside the fetch loop and before any dispatch; the
dispatch loop afterwards only records per-record submission statuses
(`submission_results`), which are logged and discarded.  `domains` pairs
each domain name with the `updated_at` values of its fetched entries. -/
def timelineTenantStep (wm : List (String × String))
    (domains : List (String × List String)) (results : List SinkResult) :
    List String × List (String × String) :=
  (results.map timelineRecordedStatus,
   domains.foldl (fun m d => timelineDomainUpdate m d.1 d.2) wm)

/-! ### Posture history collector (`posture_history_collector.py`) -/

/-- One fetched `(environment_id, data_type)` response of
`run_posture_history_collection_process`: `dates` holds
`item.get("date", "")` for each element of `response["data"]`.  A missing
or empty `data` field is a batch with `dates = []` (the code's guard skips
it entirely). -/
structure PostureBatch where
  envId : String
  dataType : String
  dates : List String
deriving DecidableEq, Repr

/-- Embedding of `max(item.get("date", "") for item in response_data)` over a nonempty
batch (`foldl max ""` agrees with it because `""` is the lexical minimum). -/
def postureBatchMax (dates : List String) : String :=
  dates.foldl max ""

/-- One iteration of the collection loop of
`run_posture_history_collection_process` (lines 179–213): a batch with no
data is skipped entirely; otherwise its records (tagged with environment id
and data type) are appended to `all_collected_data` and the batch's maximum
`date` is written into the tenant's watermark slice keyed by
`(environment_id, data_type)`. -/
def postureStep
    (acc : List (String × String × String) × List ((String × String) × String))
    (b : PostureBatch) :
    List (String × String × String) × List ((String × String) × String) :=
  if b.dates.isEmpty then acc
  else
    (acc.1 ++ b.dates.map (fun d => (b.envId, b.dataType, d)),
     setEntry acc.2 (b.envId, b.dataType) (postureBatchMax b.dates))

/-- The collection loop of `run_posture_history_collection_process`
(lines 179–213), over all fetched `(environment_id, data_type)` batches. -/
def postureCollect (batches : List PostureBatch) :
    List (String × String × String) × List ((String × String) × String) :=
  batches.foldl postureStep ([], [])

/-- The per-tenant pipeline of `run_posture_history_collection_process`
(lines 179–223): collect, then hand `all_collected_data[:200]` to
`send_posture_history_to_azure_monitor`.  Returns the dispatched records
and the updated watermark slice. -/
def postureTenantStep (batches : List PostureBatch) :
    List (String × String × String) × List ((String × String) × String) :=
  let c := postureCollect batches
  (c.1.take 200, c.2)

/-- Per-tenant fetch → watermark → dispatch shape of
`run_posture_history_collection_process` (lines 179–223): the watermark
entries are written during collection (lines 207–213), before
`send_posture_history_to_azure_monitor` runs; the dispatch results feed
only the submission counts, which the caller discards.  Returns the counts
together with the dispatched records and the updated watermark slice. -/
def postureTenantRun (batches : List PostureBatch) (results : List SinkResult) :
    (ℕ × ℕ) × (List (String × String × String) × List ((String × String) × String)) :=
  (sendCounts results, postureTenantStep batches)

/-! ### Helper lemmas -/

theorem lookupEntry_setEntry_ne {α : Type} [DecidableEq α]
    (m : List (α × String)) (k k' : α) (v : String) (h : ¬k' = k) :
    lookupEntry (setEntry m k v) k' = lookupEntry m k' := by
  induction m with
  | nil =>
    simp only [setEntry, lookupEntry, if_neg (fun hh : k = k' => h hh.symm)]
  | cons hd tl ih =>
    obtain ⟨a, b⟩ := hd
    by_cases hak : a = k
    · subst hak
      simp only [setEntry, if_pos rfl, lookupEntry,
        if_neg (fun hh : a = k' => h (hh.symm.trans rfl))]
    · simp only [setEntry, if_neg hak, lookupEntry]
      by_cases hak' : a = k'
      · simp [hak']
      · simp [hak', ih]

theorem sendCounts_foldl (rs : List SinkResult) (a b : ℕ) :
    rs.foldl (fun acc r => if isSuccess r then (acc.1 + 1, acc.2) else (acc.1, acc.2 + 1)) (a, b)
      = (a + (rs.filter (fun r => isSuccess r)).length,
         b + (rs.filter (fun r => !isSuccess r)).length) := by
  induction rs generalizing a b with
  | nil => simp
  | cons r rest ih =>
    cases h : isSuccess r with
    | true => simp [h, ih, List.filter_cons, Prod.ext_iff]; omega
    | false => simp [h, ih, List.filter_cons, Prod.ext_iff]; omega

/-- Characterisation of the shared dispatch loop: the first counter is the
number of records whose sink result had status `"success"`, the second the
number of all other records. -/
theorem sendCounts_eq (rs : List SinkResult) :
    sendCounts rs = ((rs.filter (fun r => isSuccess r)).length,
                     (rs.filter (fun r => !isSuccess r)).length) := by
  simpa [sendCounts] using sendCounts_foldl rs 0 0

theorem length_filter_add_not {α : Type} (p : α → Bool) (l : List α) :
    (l.filter p).length + (l.filter (fun x => !p x)).length = l.length := by
  induction l with
  | nil => rfl
  | cons x xs ih =>
    cases h : p x <;> simp [List.filter_cons, h, ih] <;> omega

theorem foldl_max_le_init {α : Type} [LinearOrder α] (l : List α) (a : α) :
    a ≤ l.foldl max a := by
  induction l generalizing a with
  | nil => simp
  | cons x xs ih => exact le_trans (le_max_left a x) (ih (max a x))

theorem le_foldl_max_of_mem {α : Type} [LinearOrder α] {l : List α} {e : α}
    (h : e ∈ l) (a : α) : e ≤ l.foldl max a := by
  induction l generalizing a with
  | nil => cases h
  | cons x xs ih =>
    rcases List.mem_cons.mp h with rfl | hx
    · exact le_trans (le_max_right a e) (foldl_max_le_init xs _)
    · exact ih hx _

theorem foldl_max_mem {α : Type} [LinearOrder α] (l : List α) (a : α) :
    l.foldl max a = a ∨ l.foldl max a ∈ l := by
  induction l generalizing a with
  | nil => left; rfl
  | cons x xs ih =>
    rcases ih (max a x) with h | h
    · rcases max_cases a x with ⟨h1, _⟩ | ⟨h1, _⟩
      · left; rw [List.foldl_cons, h, h1]
      · right; rw [List.foldl_cons, h, h1]; exact List.mem_cons_self x xs
    · right; exact List.mem_cons_of_mem x (by rw [List.foldl_cons]; exact h)

theorem optMax_foldl_some (l : List String) (a : String) :
    l.foldl (fun acc s => match acc with | none => some s | some m => some (max m s)) (some a)
      = some (l.foldl max a) := by
  induction l generalizing a with
  | nil => rfl
  | cons x xs ih => simpa using ih (max a x)

/-! ### Claim theorems -/

/-- C6 counterexample: the timeline collector's inline dispatch loop records
the submission for a record as `"success"` even though the sink responded
with status `"error"` — refuting "counted as a success if and only if the
sink response has status success" at this concrete input. -/
theorem timeline_success_misclassified_cex :
    timelineRecordedStatus (SinkResult.response "error") = "success"
      ∧ isSuccess (SinkResult.response "error") = false := by
  constructor <;> rfl

/-- C6 amended: in the counting send helpers (attack paths, audit logs,
posture history, tier-zero assets, finding trends) a record is counted as a
success iff the sink response has status `"success"`, any other status or a
raised error is counted as a failure, and the loop completes all records;
the timeline collector's inline dispatch loop instead records `"success"`
exactly when the send call did not raise, regardless of the response's
status field. -/
theorem dispatch_outcome_classification (rs : List SinkResult) :
    (sendCounts rs).1 = (rs.filter (fun r => isSuccess r)).length
      ∧ (sendCounts rs).2 = (rs.filter (fun r => !isSuccess r)).length
      ∧ (sendCounts rs).1 + (sendCounts rs).2 = rs.length
      ∧ ∀ r : SinkResult, timelineRecordedStatus r = "success" ↔ r ≠ SinkResult.raised := by
  refine ⟨by rw [sendCounts_eq], by rw [sendCounts_eq], ?_, ?_⟩
  · rw [sendCounts_eq]; exact length_filter_add_not _ rs
  · intro r
    cases r with
    | response s => simp [timelineRecordedStatus]
    | raised => simp [timelineRecordedStatus]

/-- C8: when exactly one record in the batch fails (a raised error or a
non-`"success"` status), the dispatch loop completes all `N` records and
reports `successful_count = N - 1`, `failed_count = 1`; the `try/except`
around each record means no exception escapes the loop (the embedding is a
total function over the outcome list). -/
theorem partial_failure_isolation (rs : List SinkResult)
    (h : (rs.filter (fun r => !isSuccess r)).length = 1) :
    sendCounts rs = (rs.length - 1, 1)
      ∧ (sendCounts rs).1 + (sendCounts rs).2 = rs.length := by
  have hlen := length_filter_add_not (fun r => isSuccess r) rs
  have hsucc : (rs.filter (fun r => isSuccess r)).length = rs.length - 1 := by omega
  refine ⟨?_, ?_⟩
  · rw [sendCounts_eq, hsucc, h]
  · rw [sendCounts_eq]; simpa using hlen

/-- C8 witness: three records where the second raises — counts are `(2, 1)`. -/
theorem partial_failure_isolation_witness :
    sendCounts [SinkResult.response "success", SinkResult.raised,
                SinkResult.response "success"]
        = (3 - 1, 1)
      ∧ (sendCounts [SinkResult.response "success", SinkResult.raised,
                     SinkResult.response "success"]).1
          + (sendCounts [SinkResult.response "success", SinkResult.raised,
                         SinkResult.response "success"]).2
        = 3 := by
  have := partial_failure_isolation
    [SinkResult.response "success", SinkResult.raised, SinkResult.response "success"]
    (by decide)
  simpa using this

/-- C7: with no prior watermark (empty stored timestamp) and a non-empty
fallback baseline (in the code, `utcnow() - timedelta(days=1)` as an
ISO-8601 string), the attack-path watermark filter accepts a record iff its
`updated_at` is lexically greater than the fallback — not unconditionally. -/
theorem first_run_bounding (stored fallback updated : String)
    (hstored : stored = "") (hfb : ¬fallback = "") :
    attackPathAccepts stored fallback updated = true ↔ fallback < updated := by
  subst hstored
  simp [attackPathAccepts, hfb]

/-- C7 witness at concrete timestamps. -/
theorem first_run_bounding_witness :
    attackPathAccepts "" "2024-01-01T00:00:00Z" "2024-01-02T00:00:00Z" = true :=
  (first_run_bounding "" "2024-01-01T00:00:00Z" "2024-01-02T00:00:00Z" rfl
    (by decide)).mpr (by rw [String.lt_iff_toList_lt]; decide)

/-- C9: starting from a fully drained bucket with capacity `C ≥ 1` and
refill rate `C` tokens/second, a refill after exactly `1/C` seconds of
elapsed time yields exactly one token — not zero and not two. -/
theorem fractional_token_accumulation (C l : ℚ) (hC : 1 ≤ C) :
    (refillTokens C C (0, l) (l + 1 / C)).1 = 1 := by
  have hpos : (0 : ℚ) < C := lt_of_lt_of_le one_pos hC
  have hne : C ≠ 0 := ne_of_gt hpos
  have helapsed : (l + 1 / C) - l = 1 / C := by ring
  unfold refillTokens
  rw [if_pos (by rw [helapsed]; positivity)]
  simp only [helapsed]
  rw [show (0 : ℚ) + 1 / C * C = 1 by field_simp]
  exact min_eq_right hC

/-- C9 witness at the default capacity of 50 requests per second. -/
theorem fractional_token_accumulation_witness :
    (refillTokens 50 50 (0, 0) (0 + 1 / 50)).1 = 1 :=
  fractional_token_accumulation 50 0 (by norm_num)

/-- C1 counterexample: in the audit-log collector, one fetched log (passing
the server-side watermark filter, with `created_at` equal to
`2024-01-02T00:00:00Z`) whose only dispatch returns status `"error"`
(`successful_count = 0`) leaves the stored timestamp map unchanged (still
empty) — the watermark is not advanced to the maximum fetched timestamp,
refuting advancement independent of sink-delivery success. -/
theorem watermark_not_advanced_on_failure_cex :
    auditWmUpdate [] "tenant.example" [some "2024-01-02T00:00:00Z"]
        [SinkResult.response "error"] = some []
      ∧ auditMaxCreated [some "2024-01-02T00:00:00Z"] = some "2024-01-02T00:00:00Z" := by
  constructor <;> decide

/-- C1 amended: in the attack path, attack path timeline and posture
history collectors the updated watermark slice is computed from the fetched
(for attack paths, filtered) records alone — the timeline and posture
updates even happen before dispatch — and is identical for any two
dispatch-outcome sequences; in the audit log collector the stored timestamp
advances only when `successful_count > 0`, and the map is returned
unchanged when no dispatch succeeded. -/
theorem watermark_advance_policy
    (tenantWm : List (String × String)) (fallback : String)
    (items : List (String × String)) (r₁ r₂ : List SinkResult)
    (tlWm : List (String × String)) (domains : List (String × List String))
    (pBatches : List PostureBatch)
    (wm : List (String × String)) (tenant : String) (logs : List (Option String))
    (results : List SinkResult) (hfail : (sendCounts results).1 = 0) :
    (attackPathTenantStep tenantWm fallback items r₁).2
        = (attackPathTenantStep tenantWm fallback items r₂).2
      ∧ (timelineTenantStep tlWm domains r₁).2 = (timelineTenantStep tlWm domains r₂).2
      ∧ (postureTenantRun pBatches r₁).2 = (postureTenantRun pBatches r₂).2
      ∧ auditWmUpdate wm tenant logs results = some wm := by
  refine ⟨rfl, rfl, rfl, ?_⟩
  simp [auditWmUpdate, hfail]

/-- C1 amended, witness at concrete inputs (attack-path, timeline and
posture watermarks identical under no dispatch vs. a raising dispatch;
audit map unchanged when the only dispatch errors). -/
theorem watermark_advance_policy_witness :
    (attackPathTenantStep [] "2024-01-01T00:00:00Z" [("d", "2024-01-02T00:00:00Z")] []).2
        = (attackPathTenantStep [] "2024-01-01T00:00:00Z" [("d", "2024-01-02T00:00:00Z")]
            [SinkResult.raised]).2
      ∧ (timelineTenantStep [] [("d", ["2024-01-02T00:00:00Z"])] []).2
          = (timelineTenantStep [] [("d", ["2024-01-02T00:00:00Z"])] [SinkResult.raised]).2
      ∧ (postureTenantRun [⟨"e1", "findings", ["2024-01-01"]⟩] []).2
          = (postureTenantRun [⟨"e1", "findings", ["2024-01-01"]⟩] [SinkResult.raised]).2
      ∧ auditWmUpdate [] "t" [some "2024-01-02T00:00:00Z"]
          [SinkResult.response "error"] = some [] :=
  watermark_advance_policy [] "2024-01-01T00:00:00Z" [("d", "2024-01-02T00:00:00Z")]
    [] [SinkResult.raised] [] [("d", ["2024-01-02T00:00:00Z"])]
    [⟨"e1", "findings", ["2024-01-01"]⟩] [] "t" [some "2024-01-02T00:00:00Z"]
    [SinkResult.response "error"] (by decide)

/-- C2 counterexample: two tenants; the first completes (accumulating a
watermark entry in the caller's map), the second fails its connection test.
The function's return value is `none` (Python `return` with no value), not
the partially updated map — even though the mutated map does hold the
partial entry. -/
theorem fatal_connection_returns_none_cex :
    (auditRun []
        [⟨"a", true, true, [some "2024-01-02T00:00:00Z"], [SinkResult.response "success"]⟩,
         ⟨"b", false, true, [], []⟩]).2 = none
      ∧ (auditRun []
        [⟨"a", true, true, [some "2024-01-02T00:00:00Z"], [SinkResult.response "success"]⟩,
         ⟨"b", false, true, [], []⟩]).1 = [("a", "2024-01-02T00:00:00Z")] := by
  constructor <;> decide

/-- C2 amended: when the connection test fails for the i-th tenant, no
subsequent tenant is processed and the function returns `None`; the
watermark accumulated from tenants 1..i-1 survives only as the in-place
mutation of the caller-supplied map, not as the return value. -/
theorem fatal_connection_abort (wmPre : List (String × String))
    (pre post : List AuditTenant) (t : AuditTenant)
    (ht : t.connOk = false)
    (wm : List (String × String))
    (hpre : auditRun wm pre = (wmPre, some wmPre)) :
    auditRun wm (pre ++ t :: post) = (wmPre, none) := by
  induction pre generalizing wm with
  | nil =>
    have h1 : wm = wmPre := congrArg Prod.fst hpre
    subst h1
    simp [auditRun, ht]
  | cons p ps ih =>
    simp only [List.cons_append, auditRun] at hpre ⊢
    by_cases hp : p.connOk = false
    · rw [if_pos hp] at hpre
      exact absurd (congrArg Prod.snd hpre) (by simp)
    · rw [if_neg hp] at hpre ⊢
      cases hstep : auditTenantStep wm p with
      | none =>
        rw [hstep] at hpre
        exact absurd (congrArg Prod.snd hpre) (by simp)
      | some wm' =>
        rw [hstep] at hpre
        exact ih wm' hpre

/-- C2 amended, witness: tenant `a` completes, tenant `b` fails its
connection test, tenant `c` (which would add an entry) is never processed;
the run ends with the partial map as mutated state and `none` as return
value. -/
theorem fatal_connection_abort_witness :
    auditRun []
        ([⟨"a", true, true, [some "2024-01-02T00:00:00Z"], [SinkResult.response "success"]⟩]
          ++ ⟨"b", false, true, [], []⟩ ::
             [⟨"c", true, true, [some "2024-09-01T00:00:00Z"], [SinkResult.response "success"]⟩])
      = ([("a", "2024-01-02T00:00:00Z")], none) :=
  fatal_connection_abort [("a", "2024-01-02T00:00:00Z")]
    [⟨"a", true, true, [some "2024-01-02T00:00:00Z"], [SinkResult.response "success"]⟩]
    [⟨"c", true, true, [some "2024-09-01T00:00:00Z"], [SinkResult.response "success"]⟩]
    ⟨"b", false, true, [], []⟩ rfl [] (by decide)

/-- C4 counterexample: with a stored watermark of `2024-05-01T00:00:00Z`
for domain `d`, a batch whose only timestamp is the older
`2024-01-01T00:00:00Z` leaves the stored value at `2024-01-01T00:00:00Z` —
the update overwrote rather than took the max with the prior value, and the
watermark regressed to an earlier timestamp. -/
theorem watermark_regression_cex :
    lookupEntry (timelineDomainUpdate [("d", "2024-05-01T00:00:00Z")] "d"
        ["2024-01-01T00:00:00Z"]) "d" = some "2024-01-01T00:00:00Z"
      ∧ ("2024-01-01T00:00:00Z" : String) < "2024-05-01T00:00:00Z" := by
  constructor
  · decide
  · rw [String.lt_iff_toList_lt]; decide

/-- C4 amended: the timeline collector's per-domain update overwrites the
stored value with the maximum timestamp of the current batch, ignoring the
prior stored value entirely (the result is the same for every prior map);
the stored value equals the batch maximum and bounds every timestamp of
the batch, but it is not monotone across batches and can regress. -/
theorem timeline_overwrite (wm : List (String × String)) (d : String)
    (entries : List String) (hne : entries ≠ [])
    (hall : ∀ e ∈ entries, ¬e = "") :
    ∃ m, timelineLatest entries = some m
      ∧ lookupEntry (timelineDomainUpdate wm d entries) d = some m
      ∧ m ∈ entries ∧ ∀ e ∈ entries, e ≤ m := by
  obtain ⟨x, xs, rfl⟩ := List.exists_cons_of_ne_nil hne
  have hlat : timelineLatest (x :: xs) = some (xs.foldl max x) := by
    unfold timelineLatest
    rw [List.filter_eq_self.mpr (fun a ha => by simpa using hall a ha)]
    rw [List.foldl_cons]
    exact optMax_foldl_some xs x
  have hmem : xs.foldl max x ∈ x :: xs := by
    rcases foldl_max_mem xs x with h | h
    · rw [h]; exact List.mem_cons_self x xs
    · exact List.mem_cons_of_mem x h
  have hm0 : ¬xs.foldl max x = "" := hall _ hmem
  refine ⟨xs.foldl max x, hlat, ?_, hmem, ?_⟩
  · have hupd : timelineDomainUpdate wm d (x :: xs) = setEntry wm d (xs.foldl max x) := by
      unfold timelineDomainUpdate
      rw [hlat]
      simp [hm0]
    rw [hupd]
    exact lookupEntry_setEntry_self wm d _
  · intro e he
    rcases List.mem_cons.mp he with rfl | hx
    · exact foldl_max_le_init xs e
    · exact le_foldl_max_of_mem hx x

/-- C4 amended, witness at the inputs of the counterexample (prior stored
value `2024-05-01T00:00:00Z`, batch `[2024-01-01T00:00:00Z]`). -/
theorem timeline_overwrite_witness :
    ∃ m, timelineLatest ["2024-01-01T00:00:00Z"] = some m
      ∧ lookupEntry (timelineDomainUpdate [("d", "2024-05-01T00:00:00Z")] "d"
          ["2024-01-01T00:00:00Z"]) "d" = some m
      ∧ m ∈ ["2024-01-01T00:00:00Z"]
      ∧ ∀ e ∈ ["2024-01-01T00:00:00Z"], e ≤ m :=
  timeline_overwrite [("d", "2024-05-01T00:00:00Z")] "d" ["2024-01-01T00:00:00Z"]
    (by decide) (by decide)

theorem posture_wm_stable (tl : List PostureBatch)
    (acc : List (String × String × String) × List ((String × String) × String))
    (k : String × String)
    (h : ∀ b ∈ tl, ¬(b.envId, b.dataType) = k) :
    lookupEntry (tl.foldl postureStep acc).2 k = lookupEntry acc.2 k := by
  induction tl generalizing acc with
  | nil => rfl
  | cons b bs ih =>
    rw [List.foldl_cons, ih _ (fun b' hb' => h b' (List.mem_cons_of_mem b hb'))]
    unfold postureStep
    by_cases hemp : b.dates.isEmpty
    · rw [if_pos hemp]
    · rw [if_neg hemp]
      exact lookupEntry_setEntry_ne _ _ _ _
        (fun hh => h b (List.mem_cons_self b bs) hh.symm)

theorem posture_wm_lookup (batches : List PostureBatch)
    (hkeys : batches.Pairwise
      (fun b₁ b₂ => ¬((b₁.envId, b₁.dataType) = (b₂.envId, b₂.dataType))))
    (b : PostureBatch) (hb : b ∈ batches) (hne : ¬b.dates.isEmpty) :
    ∀ acc, lookupEntry (batches.foldl postureStep acc).2 (b.envId, b.dataType)
      = some (postureBatchMax b.dates) := by
  induction batches with
  | nil => cases hb
  | cons hd tl ih =>
    intro acc
    rw [List.foldl_cons]
    rcases List.mem_cons.mp hb with rfl | hmem
    · have htl : ∀ b' ∈ tl, ¬((b'.envId, b'.dataType) = (b.envId, b.dataType)) :=
        fun b' hb' hh => (List.pairwise_cons.mp hkeys).1 b' hb' hh.symm
      rw [posture_wm_stable tl _ _ htl]
      unfold postureStep
      rw [if_neg hne]
      exact lookupEntry_setEntry_self _ _ _
    · exact ih (List.pairwise_cons.mp hkeys).2 hmem _

/-- C10: in the posture history collector, the records handed to the sink
dispatch are exactly `all_collected_data[:200]` (so a fetched record beyond
the 200th is never dispatched in the run), while the watermark for each
`(environment_id, data_type)` key is the maximum `date` over the batch's
entire fetched data, which bounds every fetched record of that batch —
including the ones that were truncated away from dispatch. -/
theorem posture_truncation_and_watermark (batches : List PostureBatch)
    (hkeys : batches.Pairwise
      (fun b₁ b₂ => ¬((b₁.envId, b₁.dataType) = (b₂.envId, b₂.dataType))))
    (b : PostureBatch) (hb : b ∈ batches) (hne : ¬b.dates.isEmpty) :
    (postureTenantStep batches).1 = (postureCollect batches).1.take 200
      ∧ lookupEntry (postureTenantStep batches).2 (b.envId, b.dataType)
          = some (postureBatchMax b.dates)
      ∧ ∀ dt ∈ b.dates, dt ≤ postureBatchMax b.dates := by
  refine ⟨rfl, ?_, ?_⟩
  · exact posture_wm_lookup batches hkeys b hb hne ([], [])
  · intro dt hdt
    exact le_foldl_max_of_mem hdt ""

/-- C5 counterexample: a drained bucket (`tokens = 0`, capacity 1, rate 1
token/second) and a call with `timeout = 1/2` — the first loop iteration
computes a needed wait of one second, finds `elapsed + wait > timeout`, and
returns `false` immediately: the return time equals the start time, so zero
seconds elapsed even though the timeout was half a second.  This refutes
"a false return implies at least `t` seconds elapsed". -/
theorem acquire_false_before_timeout_cex :
    acquireFuel 1 1 (some (1 / 2)) 0 5 (0, 0) 0 = some (false, (0, 0), 0)
      ∧ ¬((1 : ℚ) / 2 ≤ 0 - 0) := by
  constructor
  · norm_num [acquireFuel, refillTokens]
  · norm_num

/-- C5 amended: `acquire` returns `false` only when a timeout was given and
the projected completion time — the elapsed time at the check plus the wait
needed for the next token — exceeds that timeout; the timeout itself need
not have elapsed at the moment of the false return. -/
theorem acquire_false_projected_timeout (cap rate : ℚ) (timeout : Option ℚ)
    (start : ℚ) :
    ∀ (fuel : ℕ) (s : ℚ × ℚ) (now : ℚ) (sf : ℚ × ℚ) (rt : ℚ),
      acquireFuel cap rate timeout start fuel s now = some (false, sf, rt) →
      ∃ tmo, timeout = some tmo ∧ tmo < rt - start + (1 - sf.1) / rate := by
  intro fuel
  induction fuel with
  | zero =>
    intro s now sf rt h
    simp [acquireFuel] at h
  | succ n ih =>
    intro s now sf rt h
    cases timeout with
    | none =>
      simp only [acquireFuel] at h
      by_cases h1 : 1 ≤ (refillTokens cap rate s now).1
      · rw [if_pos h1] at h
        simp at h
      · rw [if_neg h1] at h
        obtain ⟨tmo, htmo, _⟩ := ih _ _ _ _ h
        exact absurd htmo (by simp)
    | some tmo =>
      simp only [acquireFuel] at h
      by_cases h1 : 1 ≤ (refillTokens cap rate s now).1
      · rw [if_pos h1] at h
        simp at h
      · rw [if_neg h1] at h
        by_cases hcond : now - start + (1 - (refillTokens cap rate s now).1) / rate > tmo
        · rw [if_pos hcond] at h
          have h' := Option.some.inj h
          have hsf : refillTokens cap rate s now = sf := congrArg (fun x => x.2.1) h'
          have hrt : now = rt := congrArg (fun x => x.2.2) h'
          refine ⟨tmo, rfl, ?_⟩
          rw [← hsf, ← hrt]
          exact hcond
        · rw [if_neg hcond] at h
          exact ih _ _ _ _ h

/-- C5 amended, witness at the counterexample's concrete input. -/
theorem acquire_false_projected_timeout_witness :
    ∃ tmo, (some (1 / 2 : ℚ)) = some tmo
      ∧ tmo < (0 : ℚ) - 0 + (1 - ((0, 0) : ℚ × ℚ).1) / 1 :=
  acquire_false_projected_timeout 1 1 (some (1 / 2)) 0 5 (0, 0) 0 (0, 0) 0
    (by norm_num [acquireFuel, refillTokens])

/-- Inductive invariant for the token-bucket window bound: the token count
stays within `[0, C]`; no window grant has happened while the clock is
before the window; while the clock is inside (or before the end of) the
window, grants-so-far plus remaining tokens are bounded by the initial
budget `C` plus the refill accrued since the window opened; and once the
clock passes the window, the grant count is bounded by `C + C * T`. -/
def RLInv (C w T : ℚ) (s : ℚ × ℚ) (g : ℕ) : Prop :=
  0 ≤ s.1 ∧ s.1 ≤ C ∧ (s.2 < w → g = 0)
    ∧ (s.2 ≤ w + T → (g : ℚ) + s.1 ≤ C + C * (max s.2 w - w))
    ∧ (w + T < s.2 → (g : ℚ) ≤ C + C * T)

theorem RLInv_init (C w T t₀ : ℚ) (hC : 0 ≤ C) (hT : 0 ≤ T) :
    RLInv C w T (C, t₀) 0 := by
  refine ⟨hC, le_refl C, fun _ => rfl, fun _ => ?_, fun _ => ?_⟩
  · have h1 : 0 ≤ C * (max t₀ w - w) := mul_nonneg hC (sub_nonneg.mpr (le_max_right t₀ w))
    push_cast
    linarith
  · have h1 : 0 ≤ C * T := mul_nonneg hC hT
    push_cast
    linarith

theorem refill_lastRefill (cap rate : ℚ) (s : ℚ × ℚ) (n : ℚ) (h : s.2 ≤ n) :
    (refillTokens cap rate s n).2 = n := by
  unfold refillTokens
  split
  · rfl
  · next hc =>
    have h2 := not_lt.mp hc
    exact le_antisymm h (by linarith)

theorem RLInv_refill (C w T : ℚ) (hC : 0 ≤ C) (hT : 0 ≤ T) (s : ℚ × ℚ) (g : ℕ)
    (n : ℚ) (hmon : s.2 ≤ n) (hinv : RLInv C w T s g) :
    RLInv C w T (refillTokens C C s n) g := by
  obtain ⟨h0, hcap, hzero, hwin, hafter⟩ := hinv
  unfold refillTokens
  split
  · next hel =>
    have hns : 0 ≤ n - s.2 := by linarith
    have hprod : 0 ≤ (n - s.2) * C := mul_nonneg hns hC
    refine ⟨?_, ?_, ?_, ?_, ?_⟩
    · exact le_min hC (by linarith)
    · exact min_le_left _ _
    · intro hnw
      exact hzero (lt_of_le_of_lt hmon hnw)
    · intro hnwT
      have hminr : min C (s.1 + (n - s.2) * C) ≤ s.1 + (n - s.2) * C := min_le_right _ _
      rcases le_or_lt w s.2 with hws | hws
      · have h4 := hwin (le_trans hmon hnwT)
        rw [max_eq_left hws] at h4
        rw [max_eq_left (le_trans hws hmon)]
        calc (g : ℚ) + min C (s.1 + (n - s.2) * C)
            ≤ (g : ℚ) + (s.1 + (n - s.2) * C) := by linarith
          _ = ((g : ℚ) + s.1) + (n - s.2) * C := by ring
          _ ≤ (C + C * (s.2 - w)) + (n - s.2) * C := by linarith
          _ = C + C * (n - w) := by ring
      · have hg := hzero hws
        rw [hg]
        have hminl : min C (s.1 + (n - s.2) * C) ≤ C := min_le_left _ _
        have hmx : 0 ≤ C * (max n w - w) := mul_nonneg hC (sub_nonneg.mpr (le_max_right n w))
        push_cast
        linarith
    · intro hwn
      rcases le_or_lt s.2 (w + T) with hs2 | hs2
      · have h4 := hwin hs2
        have hmx : max s.2 w - w ≤ T := by
          rcases max_cases s.2 w with ⟨he, _⟩ | ⟨he, _⟩ <;> rw [he] <;> linarith
        have h5 : C * (max s.2 w - w) ≤ C * T := mul_le_mul_of_nonneg_left hmx hC
        linarith
      · exact hafter hs2
  · next hel =>
    exact ⟨h0, hcap, hzero, hwin, hafter⟩

theorem RLInv_step (C w T : ℚ) (hC : 0 ≤ C) (hT : 0 ≤ T) (s : ℚ × ℚ) (g : ℕ)
    (n : ℚ) (hmon : s.2 ≤ n) (hinv : RLInv C w T s g) :
    RLInv C w T (acquireAttempt C C s n).2
      (g + if (acquireAttempt C C s n).1 = true ∧ w ≤ n ∧ n ≤ w + T then 1 else 0) := by
  have hq := RLInv_refill C w T hC hT s g n hmon hinv
  have hlast : (refillTokens C C s n).2 = n := refill_lastRefill C C s n hmon
  obtain ⟨h0, hcap, hzero, hwin, hafter⟩ := hq
  unfold acquireAttempt
  by_cases h1 : 1 ≤ (refillTokens C C s n).1
  · rw [if_pos h1]
    by_cases hw : w ≤ n ∧ n ≤ w + T
    · rw [if_pos ⟨rfl, hw.1, hw.2⟩]
      refine ⟨?_, ?_, ?_, ?_, ?_⟩ <;> dsimp only
      · linarith
      · linarith
      · intro hnw
        rw [hlast] at hnw
        exact absurd hw.1 (not_le.mpr hnw)
      · intro hnwT
        have h4 := hwin hnwT
        push_cast
        linarith
      · intro hgt
        rw [hlast] at hgt
        exact absurd hgt (not_lt.mpr hw.2)
    · rw [if_neg (fun hh => hw ⟨hh.2.1, hh.2.2⟩), Nat.add_zero]
      refine ⟨?_, ?_, ?_, ?_, ?_⟩ <;> dsimp only
      · linarith
      · linarith
      · exact hzero
      · intro hnwT
        have h4 := hwin hnwT
        linarith
      · exact hafter
  · rw [if_neg h1]
    rw [if_neg (by simp), Nat.add_zero]
    exact ⟨h0, hcap, hzero, hwin, hafter⟩

theorem grants_bound_aux (C w T : ℚ) (hC : 0 ≤ C) (hT : 0 ≤ T) :
    ∀ (times : List ℚ) (s : ℚ × ℚ) (g : ℕ),
      RLInv C w T s g → List.Chain (· ≤ ·) s.2 times →
      ((g + grantsInWindow C C w T s times : ℕ) : ℚ) ≤ C * T + C := by
  intro times
  induction times with
  | nil =>
    intro s g hinv _
    obtain ⟨h0, hcap, hzero, hwin, hafter⟩ := hinv
    rw [grantsInWindow, Nat.add_zero]
    rcases le_or_lt s.2 (w + T) with h | h
    · have h4 := hwin h
      have hmx : max s.2 w - w ≤ T := by
        rcases max_cases s.2 w with ⟨he, _⟩ | ⟨he, _⟩ <;> rw [he] <;> linarith
      have h5 : C * (max s.2 w - w) ≤ C * T := mul_le_mul_of_nonneg_left hmx hC
      linarith
    · have h6 := hafter h
      linarith
  | cons n rest ih =>
    intro s g hinv hchain
    rw [List.chain_cons] at hchain
    obtain ⟨hmon, hchain'⟩ := hchain
    have hstep := RLInv_step C w T hC hT s g n hmon hinv
    have hlast2 : (acquireAttempt C C s n).2.2 = n := by
      unfold acquireAttempt
      by_cases h1 : 1 ≤ (refillTokens C C s n).1
      · rw [if_pos h1]
        exact refill_lastRefill C C s n hmon
      · rw [if_neg h1]
        exact refill_lastRefill C C s n hmon
    have hrec := ih (acquireAttempt C C s n).2
      (g + if (acquireAttempt C C s n).1 = true ∧ w ≤ n ∧ n ≤ w + T then 1 else 0)
      hstep (by rw [hlast2]; exact hchain')
    rw [grantsInWindow]
    push_cast at hrec ⊢
    linarith

/-- C3: token-bucket window bound.  Starting from a full bucket with
capacity `C` and refill rate `C` tokens/second at time `t₀`, for any
nondecreasing sequence of acquire-attempt times and any window `[w, w + T]`
(`C, T ≥ 0`), the number of granted acquisitions within the window never
exceeds `C * T + C`. -/
theorem rate_limiter_window_bound (C T w t₀ : ℚ) (times : List ℚ)
    (hC : 0 ≤ C) (hT : 0 ≤ T) (hchain : List.Chain (· ≤ ·) t₀ times) :
    ((grantsInWindow C C w T (C, t₀) times : ℕ) : ℚ) ≤ C * T + C := by
  have h := grants_bound_aux C w T hC hT times (C, t₀) 0
    (RLInv_init C w T t₀ hC hT) hchain
  simpa using h

/-- C3 witness: capacity 2, window `[0, 1]`, four attempts. -/
theorem rate_limiter_window_bound_witness :
    ((grantsInWindow 2 2 0 1 (2, 0) [0, 0, 0, 1] : ℕ) : ℚ) ≤ 2 * 1 + 2 :=
  rate_limiter_window_bound 2 1 0 0 [0, 0, 0, 1]
    (by norm_num) (by norm_num) (by simp [List.chain_cons])

/-- C10 witness: one batch of two records for `(e1, findings)`. -/
theorem posture_truncation_and_watermark_witness :
    (postureTenantStep [⟨"e1", "findings", ["2024-01-01", "2024-01-03"]⟩]).1
        = (postureCollect [⟨"e1", "findings", ["2024-01-01", "2024-01-03"]⟩]).1.take 200
      ∧ lookupEntry (postureTenantStep [⟨"e1", "findings", ["2024-01-01", "2024-01-03"]⟩]).2
            ("e1", "findings")
          = some (postureBatchMax ["2024-01-01", "2024-01-03"])
      ∧ ∀ dt ∈ (["2024-01-01", "2024-01-03"] : List String),
          dt ≤ postureBatchMax ["2024-01-01", "2024-01-03"] :=
  posture_truncation_and_watermark [⟨"e1", "findings", ["2024-01-01", "2024-01-03"]⟩]
    (by simp) ⟨"e1", "findings", ["2024-01-01", "2024-01-03"]⟩ (by simp) (by decide)

end BloodHound
